import Mathlib

/-
Verification development for the pack-protocol and object-store core of a
small Git client written in Go (packages clone, common and main).

Modelling conventions:
* Go bytes (uint8) are modelled as Nat; byte slices as List Nat.
* Go uint64 / int64 arithmetic is modelled with an explicit % 2 ^ 64
  wherever the source arithmetic can overflow.
* Fallible Go functions returning (value, error) are modelled as Option
  or Except; Go code that can panic is modelled with an outcome type that
  has an explicit panic constructor.
-/

/-- Object-kind constants from the clone package (GitObjectType). -/
def OBJ_INVALID : Nat := 0

/-- Commit object kind. -/
def OBJ_COMMIT : Nat := 1

/-- Tree object kind. -/
def OBJ_TREE : Nat := 2

/-- Blob object kind. -/
def OBJ_BLOB : Nat := 3

/-- Tag object kind. -/
def OBJ_TAG : Nat := 4

/-- Offset-delta object kind. -/
def OBJ_OFS_DELTA : Nat := 6

/-- Ref-delta object kind. -/
def OBJ_REF_DELTA : Nat := 7

/-- Loop body of readVarInt (clone package): iterates over the bytes after
the starting offset, accumulating 7-bit groups at shifts 0, 7, 14, ...;
returns the decoded value and the number of bytes consumed, or none on
truncated input or when the shift would reach 63. -/
def readVarIntLoop : List Nat → Nat → Nat → Option (Nat × Nat)
  | [], _, _ => none
  | b :: rest, result, shift =>
    let result2 := result ||| ((b &&& 0x7f) <<< shift)
    if (b &&& 0x80) == 0 then some (result2, 1)
    else if 63 ≤ shift + 7 then none
    else
      match readVarIntLoop rest result2 (shift + 7) with
      | some (v, n) => some (v, n + 1)
      | none => none

/-- Model of readVarInt: the plain 7-bit little-endian varint decoder used
for delta base/result sizes.  Mirrors the identical Go function present in
both snapshots of the clone package.  Returns (value, new offset). -/
def readVarInt (data : List Nat) (offset : Nat) : Option (Nat × Nat) :=
  match readVarIntLoop (data.drop offset) 0 0 with
  | some (v, n) => some (v, offset + n)
  | none => none

/-- Bit-mask arithmetic helper: and with 0x7f is mod 128. -/
lemma land127_eq_mod (n : Nat) : n &&& 127 = n % 128 := by
  have h : (127 : Nat) = 2 ^ 7 - 1 := by norm_num
  rw [h, Nat.and_pow_two_sub_one_eq_mod]

/-- Bit-mask arithmetic helper: and with 0x0f is mod 16. -/
lemma land15_eq_mod (n : Nat) : n &&& 15 = n % 16 := by
  have h : (15 : Nat) = 2 ^ 4 - 1 := by norm_num
  rw [h, Nat.and_pow_two_sub_one_eq_mod]

/-- Bit-mask arithmetic helper: and with 0x07 is mod 8. -/
lemma land7_eq_mod (n : Nat) : n &&& 7 = n % 8 := by
  have h : (7 : Nat) = 2 ^ 3 - 1 := by norm_num
  rw [h, Nat.and_pow_two_sub_one_eq_mod]

/-- Bit-mask arithmetic helper: and with 1 is mod 2. -/
lemma land1_eq_mod (n : Nat) : n &&& 1 = n % 2 := by
  have h : (1 : Nat) = 2 ^ 1 - 1 := by norm_num
  rw [h, Nat.and_pow_two_sub_one_eq_mod]

/-- Shift-right by 4 is division by 16. -/
lemma shr4_eq_div (n : Nat) : n >>> 4 = n / 16 := by
  rw [Nat.shiftRight_eq_div_pow]

/-- Shift-right by 7 is division by 128. -/
lemma shr7_eq_div (n : Nat) : n >>> 7 = n / 128 := by
  rw [Nat.shiftRight_eq_div_pow]

/-- The loop of readVarInt keeps its accumulator below 2 ^ 63: every byte
contributes at most 7 bits at a shift of at most 56. -/
lemma readVarIntLoop_lt (l : List Nat) :
    ∀ result shift v n, shift % 7 = 0 → shift ≤ 56 → result < 2 ^ 63 →
      readVarIntLoop l result shift = some (v, n) → v < 2 ^ 63 := by
  induction l with
  | nil => intro result shift v n _ _ _ h; simp [readVarIntLoop] at h
  | cons b rest ih =>
    intro result shift v n h7 h56 hres h
    have hcontrib : (b &&& 0x7f) <<< shift < 2 ^ 63 := by
      have hb : b &&& 0x7f ≤ 127 := Nat.and_le_right
      calc (b &&& 0x7f) <<< shift = (b &&& 0x7f) * 2 ^ shift := Nat.shiftLeft_eq _ _
        _ ≤ 127 * 2 ^ shift := Nat.mul_le_mul_right _ hb
        _ < 128 * 2 ^ shift := by
            have hpos : (0 : Nat) < 2 ^ shift := Nat.pos_pow_of_pos _ (by norm_num)
            exact (Nat.mul_lt_mul_right hpos).mpr (by norm_num)
        _ = 2 ^ (shift + 7) := by rw [pow_add]; ring
        _ ≤ 2 ^ 63 := Nat.pow_le_pow_right (by norm_num) (by omega)
    have hres2 : result ||| ((b &&& 0x7f) <<< shift) < 2 ^ 63 :=
      Nat.or_lt_two_pow hres hcontrib
    simp only [readVarIntLoop] at h
    by_cases hstop : (b &&& 0x80) == 0
    · simp only [hstop, if_true] at h
      simp only [Option.some.injEq, Prod.mk.injEq] at h
      omega
    · simp only [hstop, if_false] at h
      by_cases hsh : 63 ≤ shift + 7
      · simp [hsh] at h
      · simp only [hsh, if_false] at h
        have hle : shift + 7 ≤ 56 := by
          have : (shift + 7) % 7 = 0 := by omega
          omega
        cases hrec : readVarIntLoop rest (result ||| ((b &&& 0x7f) <<< shift)) (shift + 7) with
        | none => rw [hrec] at h; simp at h
        | some p =>
          rw [hrec] at h
          obtain ⟨v2, n2⟩ := p
          simp at h
          have := ih (result ||| ((b &&& 0x7f) <<< shift)) (shift + 7) v2 n2
            (by omega) hle hres2 hrec
          omega

/-- C10: readVarInt never produces a value with bit 63 or above set, hence
the returned Go int (64-bit) is never negative: an error is returned once
the shift reaches 63, so the highest bit ever set is bit 62. -/
theorem readVarInt_result_lt (data : List Nat) (offset v off2 : Nat)
    (h : readVarInt data offset = some (v, off2)) : v < 2 ^ 63 := by
  unfold readVarInt at h
  cases hrec : readVarIntLoop (data.drop offset) 0 0 with
  | none => rw [hrec] at h; simp at h
  | some p =>
    rw [hrec] at h
    obtain ⟨v2, n2⟩ := p
    simp only [Option.some.injEq, Prod.mk.injEq] at h
    have := readVarIntLoop_lt (data.drop offset) 0 0 v2 n2 (by norm_num)
      (by norm_num) (by norm_num) hrec
    omega

/-- Witness for C10: a concrete two-byte varint decodes successfully and the
theorem yields the bound there. -/
theorem readVarInt_result_lt_witness : (1302 : Nat) < 2 ^ 63 :=
  readVarInt_result_lt [150, 10] 0 1302 2 (by decide)

/-- Loop of packObjectSize (clone package): after a first byte with the
continuation bit set, each further byte contributes its low 7 bits at the
current bit shift (starting at 4); uint64 arithmetic is taken mod 2 ^ 64.
Returns (accumulated length, bytes consumed by the loop), or none on
truncated input or a shift of 64 or more. -/
def packSizeLoop : List Nat → Nat → Nat → Option (Nat × Nat)
  | [], _, _ => none
  | b :: rest, length, bitShift =>
    if 64 ≤ bitShift then none
    else
      let add := ((b &&& 0x7f) * 2 ^ bitShift) % 2 ^ 64
      let length2 := (length + add) % 2 ^ 64
      if ((b >>> 7) &&& 1) == 1 then
        match packSizeLoop rest length2 (bitShift + 7) with
        | some (l, n) => some (l, n + 1)
        | none => none
      else some (length2, 1)

/-- Model of packObjectSize (clone package): reads the per-object pack
header encoding; bits 6..4 of the first byte are the object type (values
greater than 7 or equal to 5 are remapped to OBJ_INVALID), bits 3..0 the
low size bits, bit 7 the continuation flag.  Returns
(length, object type, bytes consumed). -/
def packObjectSize (content : List Nat) : Option (Nat × Nat × Nat) :=
  match content with
  | [] => none
  | b :: rest =>
    let t0 := (b >>> 4) &&& 0x07
    let objType := if 7 < t0 ∨ t0 = 5 then OBJ_INVALID else t0
    let sizeFromFirstByte := b &&& 0x0f
    if ((b >>> 7) &&& 1) == 1 then
      match packSizeLoop rest sizeFromFirstByte 4 with
      | some (l, n) => some (l, objType, n + 1)
      | none => none
    else some (sizeFromFirstByte, objType, 1)

/-- Canonical 7-bit little-endian continuation groups of a natural number,
least significant group first; every group except the last carries the
continuation bit 0x80.  Spec-side definition used to state the varint
round-trip property of the header-size scheme. -/
def encode7 (v : Nat) : List Nat :=
  if h : v < 128 then [v] else (v % 128 + 128) :: encode7 (v / 128)
termination_by v
decreasing_by exact Nat.div_lt_self (by omega) (by norm_num)

/-- Canonical pack-header size encoding of a value u with 3-bit type tag.
Modelled from the spec: first byte carries the type in bits 6..4 and the
low 4 size bits, with bit 7 as continuation; the remaining size bits
follow as 7-bit groups. -/
def canonicalHeaderEncode (typ u : Nat) : List Nat :=
  if u < 16 then [typ * 16 + u] else (128 + typ * 16 + u % 16) :: encode7 (u / 16)

/-- The packObjectSize loop decodes the canonical 7-bit groups of v at any
starting shift, provided the accumulated total stays below 2 ^ 64. -/
lemma packSizeLoop_encode7 (v : Nat) :
    ∀ length bitShift, bitShift < 64 → length + v * 2 ^ bitShift < 2 ^ 64 →
      packSizeLoop (encode7 v) length bitShift =
        some (length + v * 2 ^ bitShift, (encode7 v).length) := by
  induction v using Nat.strong_induction_on with
  | _ v ih =>
    intro length bitShift hsh hbound
    rw [encode7]
    by_cases hv : v < 128
    · simp only [hv, dif_pos]
      have hand : v &&& 0x7f = v := by
        rw [land127_eq_mod]; omega
      have hmul : v * 2 ^ bitShift < 2 ^ 64 := by omega
      have hsum : length + v * 2 ^ bitShift < 2 ^ 64 := hbound
      have hmore : ((v >>> 7) &&& 1) = 0 := by
        rw [shr7_eq_div, land1_eq_mod]
        have : v / 128 = 0 := Nat.div_eq_of_lt hv
        omega
      simp only [packSizeLoop, List.length_singleton]
      rw [if_neg (by omega)]
      simp only [hand, hmore]
      rw [Nat.mod_eq_of_lt hmul, Nat.mod_eq_of_lt hsum]
      simp
    · simp only [hv, dif_neg, not_false_iff]
      have hb : v % 128 + 128 &&& 0x7f = v % 128 := by
        rw [land127_eq_mod]; omega
      have hmore : ((v % 128 + 128) >>> 7) &&& 1 = 1 := by
        rw [shr7_eq_div, land1_eq_mod]
        have h1 : (v % 128 + 128) / 128 = 1 := by omega
        omega
      have hvsplit : v % 128 + 128 * (v / 128) = v := Nat.mod_add_div v 128
      have hrec_bound : (length + v % 128 * 2 ^ bitShift) + (v / 128) * 2 ^ (bitShift + 7) < 2 ^ 64 := by
        have : v % 128 * 2 ^ bitShift + (v / 128) * 2 ^ (bitShift + 7) = v * 2 ^ bitShift := by
          rw [pow_add]
          calc v % 128 * 2 ^ bitShift + v / 128 * (2 ^ bitShift * 2 ^ 7)
              = (v % 128 + 128 * (v / 128)) * 2 ^ bitShift := by ring
            _ = v * 2 ^ bitShift := by rw [hvsplit]
        omega
      have hsh2 : bitShift + 7 < 64 := by
        have h128 : 128 ≤ v := by omega
        have : 2 ^ (bitShift + 7) ≤ v * 2 ^ bitShift := by
          rw [pow_add]
          calc (2 : Nat) ^ bitShift * 2 ^ 7 = 128 * 2 ^ bitShift := by ring
            _ ≤ v * 2 ^ bitShift := Nat.mul_le_mul_right _ h128
        have hlt : 2 ^ (bitShift + 7) < 2 ^ 64 := by omega
        exact (Nat.pow_lt_pow_iff_right (by norm_num)).mp hlt
      have hmul : v % 128 * 2 ^ bitShift < 2 ^ 64 := by
        have : v % 128 * 2 ^ bitShift ≤ v * 2 ^ bitShift :=
          Nat.mul_le_mul_right _ (Nat.mod_le _ _)
        omega
      have hsum : length + v % 128 * 2 ^ bitShift < 2 ^ 64 := by
        have : v % 128 * 2 ^ bitShift ≤ v * 2 ^ bitShift :=
          Nat.mul_le_mul_right _ (Nat.mod_le _ _)
        omega
      simp only [packSizeLoop]
      rw [if_neg (by omega)]
      simp only [hb, hmore]
      rw [Nat.mod_eq_of_lt hmul, Nat.mod_eq_of_lt hsum]
      have hdivlt : v / 128 < v := Nat.div_lt_self (by omega) (by norm_num)
      rw [ih (v / 128) hdivlt (length + v % 128 * 2 ^ bitShift) (bitShift + 7) hsh2 hrec_bound]
      have hcomb : length + v % 128 * 2 ^ bitShift + v / 128 * 2 ^ (bitShift + 7)
          = length + v * 2 ^ bitShift := by
        have : v % 128 * 2 ^ bitShift + (v / 128) * 2 ^ (bitShift + 7) = v * 2 ^ bitShift := by
          rw [pow_add]
          calc v % 128 * 2 ^ bitShift + v / 128 * (2 ^ bitShift * 2 ^ 7)
              = (v % 128 + 128 * (v / 128)) * 2 ^ bitShift := by ring
            _ = v * 2 ^ bitShift := by rw [hvsplit]
        omega
      simp [hcomb]

/-- C5: decoding the canonical pack-header size encoding of any u below
2 ^ 35 with packObjectSize returns u, the kind encoded in the type bits
(with 5 remapped to OBJ_INVALID), and the number of encoded bytes; together
with the three concrete examples from the tests: 0x0a decodes to (10, 1),
0x8a 0x42 to (1066, 2) and 0x96 0x0a to (166, commit, 2). -/
theorem packObjectSize_canonical_roundtrip :
    (∀ typ u, typ ≤ 7 → u < 2 ^ 35 →
      packObjectSize (canonicalHeaderEncode typ u) =
        some (u, (if typ = 5 then OBJ_INVALID else typ),
          (canonicalHeaderEncode typ u).length))
    ∧ packObjectSize [0x0a] = some (10, OBJ_INVALID, 1)
    ∧ packObjectSize [0x8a, 0x42] = some (1066, OBJ_INVALID, 2)
    ∧ packObjectSize [0x96, 0x0a] = some (166, OBJ_COMMIT, 2) := by
  refine ⟨?_, by decide, by decide, by decide⟩
  intro typ u htyp hu
  have hnot7 : ¬ 7 < typ := by omega
  unfold canonicalHeaderEncode
  by_cases h16 : u < 16
  · simp only [h16, if_pos]
    have ht0 : ((typ * 16 + u) >>> 4) &&& 0x07 = typ := by
      rw [shr4_eq_div, land7_eq_mod]; omega
    have hmore : (((typ * 16 + u) >>> 7) &&& 1) = 0 := by
      rw [shr7_eq_div, land1_eq_mod]; omega
    have hsize : (typ * 16 + u) &&& 0x0f = u := by
      rw [land15_eq_mod]; omega
    simp only [packObjectSize, ht0, hmore, hsize, hnot7, false_or,
      List.length_singleton]
    norm_num
  · simp only [h16, if_neg, not_false_iff]
    have hu16 : u % 16 < 16 := Nat.mod_lt _ (by norm_num)
    have ht0 : ((128 + typ * 16 + u % 16) >>> 4) &&& 0x07 = typ := by
      rw [shr4_eq_div, land7_eq_mod]; omega
    have hmore : (((128 + typ * 16 + u % 16) >>> 7) &&& 1) = 1 := by
      rw [shr7_eq_div, land1_eq_mod]; omega
    have hsize : (128 + typ * 16 + u % 16) &&& 0x0f = u % 16 := by
      rw [land15_eq_mod]; omega
    have hloop := packSizeLoop_encode7 (u / 16) (u % 16) 4 (by norm_num)
      (by
        have : u % 16 + u / 16 * 2 ^ 4 = u := by omega
        rw [this]
        calc u < 2 ^ 35 := hu
          _ ≤ 2 ^ 64 := Nat.pow_le_pow_right (by norm_num) (by norm_num))
    have hcollect : u % 16 + u / 16 * 2 ^ 4 = u := by omega
    rw [hcollect] at hloop
    simp only [packObjectSize, ht0, hmore, hsize, hnot7, false_or, hloop,
      List.length_cons]
    norm_num

/-- Witness for C5: the universal part applied at the documentation example,
type tag 1 (commit) and size 166. -/
theorem packObjectSize_canonical_roundtrip_witness :
    packObjectSize (canonicalHeaderEncode 1 166) =
      some (166, (if (1 : Nat) = 5 then OBJ_INVALID else 1),
        (canonicalHeaderEncode 1 166).length) :=
  packObjectSize_canonical_roundtrip.1 1 166 (by decide) (by decide)

/-- Decidable equality for Except results, used to evaluate concrete runs
of the modelled functions. -/
instance exceptDecEq {e a : Type} [DecidableEq e] [DecidableEq a] :
    DecidableEq (Except e a) := fun x y =>
  match x, y with
  | .ok u, .ok v =>
    if h : u = v then isTrue (by rw [h]) else isFalse (fun hc => h (Except.ok.inj hc))
  | .error u, .error v =>
    if h : u = v then isTrue (by rw [h]) else isFalse (fun hc => h (Except.error.inj hc))
  | .ok _, .error _ => isFalse (fun hc => Except.noConfusion hc)
  | .error _, .ok _ => isFalse (fun hc => Except.noConfusion hc)

/-- Error kinds of the delta interpreter applyDelta (clone package). -/
inductive DeltaError where
  | varintErr
  | baseSizeMismatch
  | literalZero
  | literalTrunc
  | copyTrunc
  | copyOOB
  | resultSizeMismatch
deriving DecidableEq

/-- One conditional offset-byte read of the copy command in applyDelta:
when the selecting command bit is set, the next instruction byte is OR-ed
into the accumulator at the given shift; otherwise nothing is consumed. -/
def readOffsetPart (cond : Bool) (shift acc : Nat) (l : List Nat) :
    Except DeltaError (Nat × List Nat) :=
  if cond then
    match l with
    | [] => .error .copyTrunc
    | x :: t => .ok (acc ||| (x <<< shift), t)
  else .ok (acc, l)

/-- Offset assembly of a copy command in applyDelta: command bits 0-3
select up to 4 little-endian bytes at shifts 0, 8, 16, 24. -/
def readCopyOffset (cb : Nat) (l : List Nat) : Except DeltaError (Nat × List Nat) :=
  match readOffsetPart (cb &&& 0x01 != 0) 0 0 l with
  | .error e => .error e
  | .ok (o1, l1) =>
    match readOffsetPart (cb &&& 0x02 != 0) 8 o1 l1 with
    | .error e => .error e
    | .ok (o2, l2) =>
      match readOffsetPart (cb &&& 0x04 != 0) 16 o2 l2 with
      | .error e => .error e
      | .ok (o3, l3) => readOffsetPart (cb &&& 0x08 != 0) 24 o3 l3

/-- One conditional size-byte read of the copy command in applyDelta.  The
state is (size, sizeBytesRead); the first byte actually read replaces the
0x10000 default (initialisation), later bytes are OR-ed in. -/
def readSizePart (cond : Bool) (shift : Nat) (st : Nat × Nat) (l : List Nat) :
    Except DeltaError ((Nat × Nat) × List Nat) :=
  if cond then
    match l with
    | [] => .error .copyTrunc
    | x :: t =>
      if st.2 = 0 then .ok ((x <<< shift, 1), t)
      else .ok ((st.1 ||| (x <<< shift), st.2 + 1), t)
  else .ok (st, l)

/-- Size assembly of a copy command in applyDelta: command bits 4-6 select
up to 3 little-endian bytes at shifts 0, 8, 16; the size starts as the
0x10000 default and is initialised by the first selected byte. -/
def readCopySize (cb : Nat) (l : List Nat) : Except DeltaError (Nat × List Nat) :=
  match readSizePart (cb &&& 0x10 != 0) 0 (0x10000, 0) l with
  | .error e => .error e
  | .ok (s1, l1) =>
    match readSizePart (cb &&& 0x20 != 0) 8 s1 l1 with
    | .error e => .error e
    | .ok (s2, l2) =>
      match readSizePart (cb &&& 0x40 != 0) 16 s2 l2 with
      | .error e => .error e
      | .ok (s3, l3) => .ok (s3.1, l3)

/-- The remaining instruction bytes after a conditional offset read form a
suffix of the input. -/
lemma readOffsetPart_suffix {c : Bool} {s a : Nat} {l : List Nat} {v : Nat}
    {l2 : List Nat}
    (h : readOffsetPart c s a l = .ok (v, l2)) : l2 <:+ l := by
  unfold readOffsetPart at h
  cases c with
  | false => simp at h; rw [← h.2]
  | true =>
    cases l with
    | nil => simp at h
    | cons x t =>
      simp at h
      rw [← h.2]
      exact List.suffix_cons x t

/-- The remaining instruction bytes after a conditional size read form a
suffix of the input. -/
lemma readSizePart_suffix {c : Bool} {s : Nat} {st st2 : Nat × Nat} {l : List Nat}
    {l2 : List Nat}
    (h : readSizePart c s st l = .ok (st2, l2)) : l2 <:+ l := by
  unfold readSizePart at h
  cases c with
  | false => simp at h; rw [← h.2]
  | true =>
    cases l with
    | nil => simp at h
    | cons x t =>
      by_cases h0 : st.2 = 0 <;> simp [h0] at h <;> rw [← h.2] <;>
        exact List.suffix_cons x t

/-- The remaining instruction bytes after a copy-offset assembly form a
suffix of the input. -/
lemma readCopyOffset_suffix {cb : Nat} {l : List Nat} {off : Nat} {l2 : List Nat}
    (h : readCopyOffset cb l = .ok (off, l2)) : l2 <:+ l := by
  unfold readCopyOffset at h
  split at h
  · simp at h
  next o1 l1 heq1 =>
    split at h
    · simp at h
    next o2 l2x heq2 =>
      split at h
      · simp at h
      next o3 l3 heq3 =>
        exact (readOffsetPart_suffix h).trans ((readOffsetPart_suffix heq3).trans
          ((readOffsetPart_suffix heq2).trans (readOffsetPart_suffix heq1)))

/-- The remaining instruction bytes after a copy-size assembly form a
suffix of the input. -/
lemma readCopySize_suffix {cb : Nat} {l : List Nat} {sz : Nat} {l2 : List Nat}
    (h : readCopySize cb l = .ok (sz, l2)) : l2 <:+ l := by
  unfold readCopySize at h
  split at h
  · simp at h
  next s1 l1 heq1 =>
    split at h
    · simp at h
    next s2 l2x heq2 =>
      split at h
      · simp at h
      next s3 l3 heq3 =>
        simp at h
        rw [← h.2]
        exact (readSizePart_suffix heq3).trans
          ((readSizePart_suffix heq2).trans (readSizePart_suffix heq1))

/-- Main instruction loop of applyDelta (clone package): repeatedly reads a
command byte; high bit clear means literal insert (length = low 7 bits,
length 0 is a hard error), high bit set means copy-from-base with the
offset/size assembly of readCopyOffset and readCopySize, checked against
the base length before slicing. -/
def applyDeltaLoop (base : List Nat) : List Nat → List Nat → Except DeltaError (List Nat)
  | [], result => .ok result
  | cb :: rest, result =>
    if (cb &&& 0x80) == 0 then
      let length := cb &&& 0x7f
      if length = 0 then .error .literalZero
      else if rest.length < length then .error .literalTrunc
      else applyDeltaLoop base (rest.drop length) (result ++ rest.take length)
    else
      match h1 : readCopyOffset cb rest with
      | .error e => .error e
      | .ok (off, l1) =>
        match h2 : readCopySize cb l1 with
        | .error e => .error e
        | .ok (sz, l2) =>
          if base.length < off + sz then .error .copyOOB
          else applyDeltaLoop base l2 (result ++ ((base.drop off).take sz))
termination_by l _ => l.length
decreasing_by
  · simp only [List.length_cons, List.length_drop]; omega
  · have hs1 := (readCopyOffset_suffix h1).length_le
    have hs2 := (readCopySize_suffix h2).length_le
    simp only [List.length_cons]; omega

/-- Model of applyDelta (clone package): reads the base size and result
size as plain varints, checks the base size against the actual base
length, runs the instruction loop, and finally checks the produced length
against the declared result size. -/
def applyDelta (base delta : List Nat) : Except DeltaError (List Nat) :=
  match readVarInt delta 0 with
  | none => .error .varintErr
  | some (baseSizeFromDelta, o1) =>
    if baseSizeFromDelta ≠ base.length then .error .baseSizeMismatch
    else
      match readVarInt delta o1 with
      | none => .error .varintErr
      | some (resultSize, o2) =>
        match applyDeltaLoop base (delta.drop o2) [] with
        | .error e => .error e
        | .ok result =>
          if result.length ≠ resultSize then .error .resultSizeMismatch
          else .ok result

/-- C8: a literal-insert command byte 0x00 (high bit clear, low 7 bits
zero) makes applyDelta fail with the unsupported-literal-encoding error,
whatever follows; it is never treated as a zero-length insert, and no
varint-length extension is read.  The second conjunct exercises the whole
applyDelta on a concrete delta whose first command byte is 0x00. -/
theorem applyDelta_zero_literal_byte :
    (∀ (base l acc : List Nat), applyDeltaLoop base (0 :: l) acc = .error .literalZero)
    ∧ applyDelta [97] [1, 1, 0] = .error .literalZero := by
  constructor
  · intro base l acc
    simp [applyDeltaLoop]
  · simp [applyDelta, readVarInt, readVarIntLoop, applyDeltaLoop]

/-- Trailing instruction bytes selected by command bits 4-6 of a copy
command: one byte per set bit, in bit order.  Spec-side helper for stating
the size-assembly property. -/
def sizeSelBytes (b u v w : Nat) : List Nat :=
  (if b &&& 0x10 != 0 then [u] else []) ++ (if b &&& 0x20 != 0 then [v] else [])
    ++ (if b &&& 0x40 != 0 then [w] else [])

/-- C2: for every copy command byte, the size read by applyDelta is 0x10000
when none of bits 4-6 are set, and otherwise exactly the little-endian 
assembly of the selected trailing bytes at shifts 0/8/16 with unselected
positions contributing 0; the default is fully replaced whenever any size
bit is set, even when the selected bytes are zero (second conjunct:
command 0x90 with size byte 0 yields size 0, not 0x10000). -/
theorem readCopySize_assembly :
    (∀ b u v w rest,
      readCopySize b (sizeSelBytes b u v w ++ rest) =
        .ok ((if b &&& 0x10 = 0 ∧ b &&& 0x20 = 0 ∧ b &&& 0x40 = 0 then 0x10000
              else (if b &&& 0x10 != 0 then u else 0) |||
                   ((if b &&& 0x20 != 0 then v else 0) <<< 8) |||
                   ((if b &&& 0x40 != 0 then w else 0) <<< 16)), rest))
    ∧ readCopySize 0x90 [0] = .ok (0, []) := by
  constructor
  · intro b u v w rest
    cases h4 : (b &&& 0x10 != 0) <;> cases h5 : (b &&& 0x20 != 0) <;>
      cases h6 : (b &&& 0x40 != 0) <;>
        simp_all [sizeSelBytes, readCopySize, readSizePart]
  · decide


/-- Every byte produced by the applyDelta instruction loop comes from the
accumulated output, the base object, or the instruction stream: all base
accesses go through an in-bounds slice. -/
lemma applyDeltaLoop_mem (base : List Nat) :
    ∀ (N : Nat) (l acc out : List Nat), l.length ≤ N →
      applyDeltaLoop base l acc = .ok out →
      ∀ x, x ∈ out → x ∈ acc ∨ x ∈ base ∨ x ∈ l := by
  intro N
  induction N with
  | zero =>
    intro l acc out hlen h x hx
    have hnil : l = [] := List.length_eq_zero.mp (Nat.le_zero.mp hlen)
    subst hnil
    simp only [applyDeltaLoop, Except.ok.injEq] at h
    subst h
    exact Or.inl hx
  | succ N ih =>
    intro l acc out hlen h x hx
    cases l with
    | nil =>
      simp only [applyDeltaLoop, Except.ok.injEq] at h
      subst h
      exact Or.inl hx
    | cons cb rest =>
      cases hbit : ((cb &&& 0x80) == 0) with
      | true =>
        simp only [applyDeltaLoop, hbit, eq_self_iff_true, if_true] at h
        by_cases hz : cb &&& 0x7f = 0
        · simp [hz] at h
        · simp only [hz, if_false] at h
          by_cases htr : rest.length < cb &&& 0x7f
          · simp [htr] at h
          · simp only [htr, if_false] at h
            have hrec := ih (rest.drop (cb &&& 0x7f)) (acc ++ rest.take (cb &&& 0x7f)) out
              (by simp only [List.length_drop]; simp only [List.length_cons] at hlen; omega) h x hx
            rcases hrec with hacc | hbase | hrest
            · rcases List.mem_append.mp hacc with h1 | h2
              · exact Or.inl h1
              · exact Or.inr (Or.inr (List.mem_cons_of_mem _ (List.take_subset _ _ h2)))
            · exact Or.inr (Or.inl hbase)
            · exact Or.inr (Or.inr (List.mem_cons_of_mem _ (List.drop_subset _ _ hrest)))
      | false =>
        simp only [applyDeltaLoop, hbit, Bool.false_eq_true, if_false] at h
        split at h
        · simp at h
        next off l1 heq1 =>
          split at h
          · simp at h
          next sz l2 heq2 =>
            by_cases hoob : base.length < off + sz
            · simp [hoob] at h
            · simp only [hoob, if_false] at h
              have hlen2 : l2.length ≤ N := by
                have s1 := (readCopyOffset_suffix heq1).length_le
                have s2 := (readCopySize_suffix heq2).length_le
                simp only [List.length_cons] at hlen
                omega
              have hrec := ih l2 (acc ++ (base.drop off).take sz) out hlen2 h x hx
              rcases hrec with hacc | hbase | hl2
              · rcases List.mem_append.mp hacc with h1 | h2
                · exact Or.inl h1
                · exact Or.inr (Or.inl (List.drop_subset _ _ (List.take_subset _ _ h2)))
              · exact Or.inr (Or.inl hbase)
              · have hsub : l2 ⊆ rest :=
                  ((readCopySize_suffix heq2).trans (readCopyOffset_suffix heq1)).subset
                exact Or.inr (Or.inr (List.mem_cons_of_mem _ (hsub hl2)))

/-- C1: when the instruction loop of applyDelta reaches a copy command
whose assembled offset and size satisfy offset + size > len(base), it
returns the out-of-bounds copy error (first conjunct); and the result of a
successful applyDelta run contains only bytes of the base object or of
the instruction stream — the interpreter is a total function of its
inputs (it cannot panic) and never reads base bytes outside
[0, len(base)) (second conjunct). -/
theorem applyDelta_copy_oob :
    (∀ (base : List Nat) (cb : Nat) (l acc : List Nat) (off : Nat) (l1 : List Nat)
        (sz : Nat) (l2 : List Nat),
      ((cb &&& 0x80) == 0) = false →
      readCopyOffset cb l = .ok (off, l1) →
      readCopySize cb l1 = .ok (sz, l2) →
      base.length < off + sz →
      applyDeltaLoop base (cb :: l) acc = .error .copyOOB)
    ∧ (∀ (base delta out : List Nat), applyDelta base delta = .ok out →
        ∀ x ∈ out, x ∈ base ∨ x ∈ delta) := by
  constructor
  · intro base cb l acc off l1 sz l2 hbit hoff hsz hoob
    simp only [applyDeltaLoop, hbit, Bool.false_eq_true, if_false]
    split
    · next e heq => rw [hoff] at heq; simp at heq
    · next off2 l12 heq =>
      rw [hoff] at heq
      simp only [Except.ok.injEq, Prod.mk.injEq] at heq
      obtain ⟨ho, hl⟩ := heq
      subst ho; subst hl
      split
      · next e heq2 => rw [hsz] at heq2; simp at heq2
      · next sz2 l22 heq2 =>
        rw [hsz] at heq2
        simp only [Except.ok.injEq, Prod.mk.injEq] at heq2
        obtain ⟨hs, hl2⟩ := heq2
        subst hs; subst hl2
        simp [hoob]
  · intro base delta out h x hx
    unfold applyDelta at h
    split at h
    · simp at h
    next baseSizeFromDelta o1 heq1 =>
      split at h
      · simp at h
      · split at h
        · simp at h
        next resultSize o2 heq2 =>
          split at h
          · simp at h
          next result heq3 =>
            split at h
            · simp at h
            · simp only [Except.ok.injEq] at h
              subst h
              have := applyDeltaLoop_mem base (delta.drop o2).length
                (delta.drop o2) [] result (le_refl _) heq3 x hx
              rcases this with habs | hbase | hdrop
              · simp at habs
              · exact Or.inl hbase
              · exact Or.inr (List.drop_subset _ _ hdrop)

/-- Witness for C1: a concrete out-of-bounds copy command (offset 2, size
3 against a 1-byte base) yields the copy error, and a concrete successful
run only produces bytes of base or delta. -/
theorem applyDelta_copy_oob_witness :
    applyDeltaLoop [7] (145 :: [2, 3]) [] = .error DeltaError.copyOOB
    ∧ (∀ x ∈ ([9] : List Nat), x ∈ ([5] : List Nat) ∨ x ∈ ([1, 1, 1, 9] : List Nat)) :=
  ⟨applyDelta_copy_oob.1 [7] 145 [2, 3] [] 2 [3] 3 [] (by decide) (by decide)
      (by decide) (by decide),
   applyDelta_copy_oob.2 [5] [1, 1, 1, 9] [9]
     (by simp [applyDelta, readVarInt, readVarIntLoop, applyDeltaLoop])⟩

/-- Decimal ASCII digits of a natural number, most significant first, as
produced by fmt.Sprintf with a d verb. -/
def numToDecBytes (n : Nat) : List Nat :=
  if h : n < 10 then [48 + n] else numToDecBytes (n / 10) ++ [48 + n % 10]
termination_by n
decreasing_by exact Nat.div_lt_self (by omega) (by norm_num)

/-- ASCII bytes of the object kind string blob. -/
def blobKind : List Nat := [98, 108, 111, 98]

/-- ASCII bytes of the object kind string tree. -/
def treeKind : List Nat := [116, 114, 101, 101]

/-- ASCII bytes of the object kind string commit. -/
def commitKind : List Nat := [99, 111, 109, 109, 105, 116]

/-- ASCII bytes of the object kind string tag. -/
def tagKind : List Nat := [116, 97, 103]

/-- Model of FormatGitObjectContent (common package): builds
kind SP decimal-length NUL content as a byte list. -/
def FormatGitObjectContent (typ content : List Nat) : List Nat :=
  typ ++ [32] ++ numToDecBytes content.length ++ [0] ++ content

/-- Model of WriteCompactContent (common package): the bytes that reach
the writer are the zlib compression of the content.  The compressor
(package compress/zlib) is external to the repository and is therefore a
parameter of the model. -/
def WriteCompactContent (compress : List Nat → List Nat) (content : List Nat) :
    List Nat :=
  compress content

/-- Model of bytes.Split with a one-byte separator: splits at every
occurrence of the separator; the empty list splits to one empty part. -/
def splitOnByte (sep : Nat) : List Nat → List (List Nat)
  | [] => [[]]
  | b :: rest =>
    if b = sep then [] :: splitOnByte sep rest
    else
      match splitOnByte sep rest with
      | [] => [[b]]
      | h :: t => (b :: h) :: t

/-- Position of the first zero byte (or the length if none), as computed
by the scanning loop of ReadObjectFile. -/
def findZeroPos (l : List Nat) : Nat := (l.takeWhile (fun b => b != 0)).length

/-- Outcomes of ReadObjectFile: decompression failure, an unparsable
header, or the slice panic Go would hit when no NUL byte exists. -/
inductive ReadObjErr where
  | decompressErr
  | headerErr
  | slicePanic
deriving DecidableEq

/-- Model of ReadObjectFile (common package): decompress (external
decompressor as parameter), find the first NUL, split the prefix on
spaces, require exactly two fields, and return (content after NUL,
type field). -/
def ReadObjectFile (decompress : List Nat → Option (List Nat)) (raw : List Nat) :
    Except ReadObjErr (List Nat × List Nat) :=
  match decompress raw with
  | none => .error .decompressErr
  | some content =>
    let zeroPos := findZeroPos content
    let parts := splitOnByte 32 (content.take zeroPos)
    if parts.length ≠ 2 then .error .headerErr
    else if content.length < zeroPos + 1 then .error .slicePanic
    else .ok (content.drop (zeroPos + 1), parts.headD [])

/-- Every decimal digit byte is in [48, 57]. -/
lemma numToDecBytes_bounds (n : Nat) :
    ∀ d ∈ numToDecBytes n, 48 ≤ d ∧ d ≤ 57 := by
  induction n using Nat.strong_induction_on with
  | _ n ih =>
    intro d hd
    rw [numToDecBytes] at hd
    by_cases h : n < 10
    · simp [h] at hd
      omega
    · simp only [h, dif_neg, not_false_iff, List.mem_append, List.mem_singleton] at hd
      rcases hd with hd | hd
      · exact ih (n / 10) (Nat.div_lt_self (by omega) (by norm_num)) d hd
      · have : n % 10 < 10 := Nat.mod_lt _ (by norm_num)
        omega

/-- findZeroPos finds the length of a zero-free prefix before a NUL. -/
lemma findZeroPos_append (A B : List Nat) (hA : ∀ a ∈ A, a ≠ 0) :
    findZeroPos (A ++ 0 :: B) = A.length := by
  induction A with
  | nil => simp [findZeroPos, List.takeWhile]
  | cons a A ih =>
    have ha : a ≠ 0 := hA a (List.mem_cons_self a A)
    have hrest : ∀ x ∈ A, x ≠ 0 := fun x hx => hA x (List.mem_cons_of_mem a hx)
    simp only [findZeroPos, List.cons_append, List.takeWhile] at *
    have hba : (a != 0) = true := by simpa using ha
    rw [hba]
    simp only [List.length_cons]
    rw [List.append_eq, ih hrest]

/-- splitOnByte on a separator-free list yields a single part. -/
lemma splitOnByte_not_mem (sep : Nat) (D : List Nat) (hD : sep ∉ D) :
    splitOnByte sep D = [D] := by
  induction D with
  | nil => simp [splitOnByte]
  | cons d D ih =>
    have hd : d ≠ sep := fun h => hD (h ▸ List.mem_cons_self d D)
    have hrest : sep ∉ D := fun h => hD (List.mem_cons_of_mem d h)
    simp only [splitOnByte, hd, if_false]
    rw [ih hrest]

/-- splitOnByte splits off a separator-free prefix before a separator. -/
lemma splitOnByte_append (sep : Nat) (A B : List Nat) (hA : sep ∉ A) :
    splitOnByte sep (A ++ sep :: B) = A :: splitOnByte sep B := by
  induction A with
  | nil => simp [splitOnByte]
  | cons a A ih =>
    have ha : a ≠ sep := fun h => hA (h ▸ List.mem_cons_self a A)
    have hrest : sep ∉ A := fun h => hA (List.mem_cons_of_mem a h)
    simp only [List.cons_append, splitOnByte, ha, if_false]
    rw [List.append_eq, ih hrest]

/-- C3: for each of the four object kinds and any byte content, formatting
with FormatGitObjectContent, writing zlib-compressed with
WriteCompactContent, and reading back with ReadObjectFile returns exactly
the original content and kind, for every compressor/decompressor pair in
which decompression inverts compression (the zlib pair is external to the
repository). -/
theorem object_store_roundtrip :
    ∀ (compress : List Nat → List Nat) (decompress : List Nat → Option (List Nat)),
      (∀ x, decompress (compress x) = some x) →
      ∀ kind, kind ∈ [blobKind, treeKind, commitKind, tagKind] →
      ∀ content : List Nat,
        ReadObjectFile decompress
          (WriteCompactContent compress (FormatGitObjectContent kind content)) =
          .ok (content, kind) := by
  intro compress decompress hinv kind hkind content
  have hfacts : (∀ a ∈ kind, a ≠ 0) ∧ 32 ∉ kind := by
    simp only [List.mem_cons, List.not_mem_nil, or_false] at hkind
    rcases hkind with rfl | rfl | rfl | rfl <;> exact ⟨by decide, by decide⟩
  obtain ⟨hk0, hk32⟩ := hfacts
  have hdig := numToDecBytes_bounds content.length
  have hd0 : ∀ a ∈ numToDecBytes content.length, a ≠ 0 := by
    intro a ha
    have := hdig a ha
    omega
  have hd32 : 32 ∉ numToDecBytes content.length := by
    intro hmem
    have := hdig 32 hmem
    omega
  have hF : FormatGitObjectContent kind content =
      (kind ++ 32 :: numToDecBytes content.length) ++ 0 :: content := by
    simp [FormatGitObjectContent, List.append_assoc]
  have hA0 : ∀ a ∈ kind ++ 32 :: numToDecBytes content.length, a ≠ 0 := by
    intro a ha
    rcases List.mem_append.mp ha with h | h
    · exact hk0 a h
    · rcases List.mem_cons.mp h with rfl | h
      · omega
      · exact hd0 a h
  have hzp : findZeroPos (FormatGitObjectContent kind content) =
      (kind ++ 32 :: numToDecBytes content.length).length := by
    rw [hF]
    exact findZeroPos_append _ _ hA0
  have htake : (FormatGitObjectContent kind content).take
      (kind ++ 32 :: numToDecBytes content.length).length =
      kind ++ 32 :: numToDecBytes content.length := by
    rw [hF]
    exact List.take_left _ _
  have hsplit : splitOnByte 32 (kind ++ 32 :: numToDecBytes content.length) =
      [kind, numToDecBytes content.length] := by
    rw [splitOnByte_append 32 kind _ hk32,
      splitOnByte_not_mem 32 _ hd32]
  have hdrop : (FormatGitObjectContent kind content).drop
      ((kind ++ 32 :: numToDecBytes content.length).length + 1) = content := by
    rw [hF]
    have hsplit2 : (kind ++ 32 :: numToDecBytes content.length) ++ 0 :: content =
        ((kind ++ 32 :: numToDecBytes content.length) ++ [0]) ++ content := by
      simp
    have hlen : (kind ++ 32 :: numToDecBytes content.length).length + 1 =
        ((kind ++ 32 :: numToDecBytes content.length) ++ [0]).length := by
      simp
      omega
    rw [hsplit2, hlen]
    exact List.drop_left _ _
  have hlenF : (FormatGitObjectContent kind content).length =
      (kind ++ 32 :: numToDecBytes content.length).length + 1 + content.length := by
    rw [hF]
    simp
    omega
  unfold ReadObjectFile WriteCompactContent
  rw [hinv (FormatGitObjectContent kind content)]
  dsimp only
  rw [hzp, htake, hsplit]
  simp only [List.length_cons, List.length_singleton, List.headD_cons, ne_eq]
  rw [if_neg (by norm_num)]
  rw [if_neg (by omega)]
  rw [hdrop]

/-- Witness for C3: the round trip at the identity compressor, kind blob
and a concrete two-byte content. -/
theorem object_store_roundtrip_witness :
    ReadObjectFile some (WriteCompactContent id (FormatGitObjectContent blobKind [104, 105])) =
      .ok ([104, 105], blobKind) :=
  object_store_roundtrip id some (fun _ => rfl) blobKind (by decide) [104, 105]

/-- Left rotation of a 32-bit word. -/
def rotl32 (x s : Nat) : Nat :=
  (((x % 2 ^ 32) * 2 ^ s) % 2 ^ 32) ||| ((x % 2 ^ 32) / 2 ^ (32 - s))

/-- SHA-1 round function (FIPS 180-4), modelling package crypto/sha1. -/
def sha1F (t b c d : Nat) : Nat :=
  if t < 20 then (b &&& c) ||| ((b ^^^ (2 ^ 32 - 1)) &&& d)
  else if t < 40 then b ^^^ c ^^^ d
  else if t < 60 then (b &&& c) ||| (b &&& d) ||| (c &&& d)
  else b ^^^ c ^^^ d

/-- SHA-1 round constants. -/
def sha1K (t : Nat) : Nat :=
  if t < 20 then 0x5A827999
  else if t < 40 then 0x6ED9EBA1
  else if t < 60 then 0x8F1BBCDC
  else 0xCA62C1D6

/-- Big-endian 32-bit words of a 64-byte block. -/
def toWords : List Nat → List Nat
  | a :: b :: c :: d :: rest => (a * 2 ^ 24 + b * 2 ^ 16 + c * 2 ^ 8 + d) :: toWords rest
  | _ => []

/-- One step of SHA-1 message-schedule expansion. -/
def expandStep (w : List Nat) : List Nat :=
  w ++ [rotl32 ((w.getD (w.length - 3) 0) ^^^ (w.getD (w.length - 8) 0)
    ^^^ (w.getD (w.length - 14) 0) ^^^ (w.getD (w.length - 16) 0)) 1]

/-- Iterated message-schedule expansion (from 16 to 80 words). -/
def expandN : Nat → List Nat → List Nat
  | 0, w => w
  | n + 1, w => expandN n (expandStep w)

/-- The 80 SHA-1 rounds over the expanded schedule. -/
def roundLoop : Nat → List Nat → Nat × Nat × Nat × Nat × Nat → Nat × Nat × Nat × Nat × Nat
  | _, [], st => st
  | t, w :: ws, (a, b, c, d, e) =>
    let temp := (rotl32 a 5 + sha1F t b c d + e + sha1K t + w) % 2 ^ 32
    roundLoop (t + 1) ws (temp, a, rotl32 b 30, c, d)

/-- SHA-1 compression of one 64-byte block into the running state. -/
def processBlock (st : Nat × Nat × Nat × Nat × Nat) (block : List Nat) :
    Nat × Nat × Nat × Nat × Nat :=
  match st, roundLoop 0 (expandN 64 (toWords block)) st with
  | (h0, h1, h2, h3, h4), (a, b, c, d, e) =>
    ((h0 + a) % 2 ^ 32, (h1 + b) % 2 ^ 32, (h2 + c) % 2 ^ 32,
     (h3 + d) % 2 ^ 32, (h4 + e) % 2 ^ 32)

/-- SHA-1 initial state. -/
def sha1H0 : Nat × Nat × Nat × Nat × Nat :=
  (0x67452301, 0xEFCDAB89, 0x98BADCFE, 0x10325476, 0xC3D2E1F0)

/-- Big-endian 4-byte serialisation of a 32-bit word. -/
def byteBE4 (n : Nat) : List Nat :=
  [n / 2 ^ 24 % 256, n / 2 ^ 16 % 256, n / 2 ^ 8 % 256, n % 256]

/-- Big-endian 8-byte serialisation of a 64-bit value. -/
def byteBE8 (n : Nat) : List Nat :=
  [n / 2 ^ 56 % 256, n / 2 ^ 48 % 256, n / 2 ^ 40 % 256, n / 2 ^ 32 % 256,
   n / 2 ^ 24 % 256, n / 2 ^ 16 % 256, n / 2 ^ 8 % 256, n % 256]

/-- SHA-1 message padding: 0x80, zeros to 56 mod 64, 8-byte bit length. -/
def sha1Pad (msg : List Nat) : List Nat :=
  msg ++ 0x80 :: (List.replicate ((120 - ((msg.length + 1) % 64)) % 64) 0
    ++ byteBE8 (msg.length * 8))

/-- Split a byte list into 64-byte chunks. -/
def chunks64 (l : List Nat) : List (List Nat) :=
  if h : l = [] then [] else l.take 64 :: chunks64 (l.drop 64)
termination_by l.length
decreasing_by
  have : l.length ≠ 0 := fun hz => h (List.length_eq_zero.mp hz)
  simp only [List.length_drop]
  omega

/-- SHA-1 digest (20 bytes) of a byte list; model of package crypto/sha1,
which is external to the repository. -/
def sha1 (msg : List Nat) : List Nat :=
  match (chunks64 (sha1Pad msg)).foldl processBlock sha1H0 with
  | (a, b, c, d, e) => byteBE4 a ++ byteBE4 b ++ byteBE4 c ++ byteBE4 d ++ byteBE4 e

/-- A SHA-1 digest always has exactly 20 bytes. -/
lemma sha1_length (msg : List Nat) : (sha1 msg).length = 20 := by
  unfold sha1
  rcases (chunks64 (sha1Pad msg)).foldl processBlock sha1H0 with ⟨a, b, c, d, e⟩
  simp [byteBE4]

/-- State of the package-level defaultHasher (crypto/sha1 hasher), modelled
as the bytes absorbed since the last Reset. -/
structure GoHasher where
  buf : List Nat
deriving DecidableEq

/-- The hasher as initialised by the package (sha1.New()): empty. -/
def defaultHasherInit : GoHasher := ⟨[]⟩

/-- Error kinds of CalculateSHA (common package). -/
inductive HashErr where
  | writeMismatch
  | malformedLength
deriving DecidableEq

/-- Model of CalculateSHA (common package): writes the content into the
shared hasher, checks the written count, sums, checks the digest length,
and resets the hasher on every return path (the deferred Reset). -/
def CalculateSHA (st : GoHasher) (content : List Nat) :
    Except HashErr (List Nat) × GoHasher :=
  let st1 : GoHasher := ⟨st.buf ++ content⟩
  if content.length ≠ content.length then (.error .writeMismatch, ⟨[]⟩)
  else
    let res := sha1 st1.buf
    if res.length ≠ 20 then (.error .malformedLength, ⟨[]⟩)
    else (.ok res, ⟨[]⟩)

/-- One lower-case hex digit byte. -/
def hexDigit (n : Nat) : Nat := if n < 10 then 48 + n else 87 + n

/-- Lower-case hex encoding of a byte list (hex.EncodeToString). -/
def hexEncode : List Nat → List Nat
  | [] => []
  | b :: rest => hexDigit (b / 16) :: hexDigit (b % 16) :: hexEncode rest

/-- Model of CalculateEncodedSHA (common package): hex-encodes the digest
of CalculateSHA. -/
def CalculateEncodedSHA (st : GoHasher) (content : List Nat) :
    Except HashErr (List Nat) × GoHasher :=
  match CalculateSHA st content with
  | (.error e, st2) => (.error e, st2)
  | (.ok dig, st2) => (.ok (hexEncode dig), st2)

/-- Hex encoding doubles the length. -/
lemma hexEncode_length (l : List Nat) : (hexEncode l).length = 2 * l.length := by
  induction l with
  | nil => simp [hexEncode]
  | cons b t ih => simp only [hexEncode, List.length_cons, ih]; omega

/-- C9: starting from the package-initial hasher, CalculateSHA returns the
SHA-1 digest of the content (20 bytes) and leaves the hasher reset, so a
second sequential call on equal content returns the identical digest even
though both calls share the hasher instance; CalculateEncodedSHA likewise
returns the 40-hex-character encoding on both calls. -/
theorem calculateSHA_content_addressed :
    ∀ content : List Nat,
      CalculateSHA defaultHasherInit content = (.ok (sha1 content), defaultHasherInit)
      ∧ CalculateSHA (CalculateSHA defaultHasherInit content).2 content =
          (.ok (sha1 content), defaultHasherInit)
      ∧ (sha1 content).length = 20
      ∧ CalculateEncodedSHA defaultHasherInit content =
          (.ok (hexEncode (sha1 content)), defaultHasherInit)
      ∧ (hexEncode (sha1 content)).length = 40 := by
  intro content
  have hfirst : CalculateSHA defaultHasherInit content =
      (.ok (sha1 content), defaultHasherInit) := by
    simp [CalculateSHA, defaultHasherInit, sha1_length]
  refine ⟨hfirst, ?_, sha1_length content, ?_, ?_⟩
  · rw [hfirst]
    exact hfirst
  · simp [CalculateEncodedSHA, hfirst]
  · rw [hexEncode_length, sha1_length]

/-- Outcome of a Go function that may return a value, return an error, or
panic (explicit panic or slice-bounds panic). -/
inductive GoOut (α : Type) where
  | ok (a : α)
  | err
  | panicked
deriving DecidableEq

/-- Go slice expression l[n:]: panics when n exceeds the length. -/
def stripN (n : Nat) (l : List Nat) : Option (List Nat) :=
  if l.length < n then none else some (l.drop n)

/-- Loop of GetRefList (clone package) over the newline-separated lines
after the first: stops at a 0000 flush line; strips 4 extra bytes on line
index 0; slices the 40-byte hash; panics (explicitly) when the byte after
the hash is not a space; takes the name up to the first NUL. -/
def getRefListLoop : Nat → List (List Nat) → List (List Nat × List Nat) →
    GoOut (List (List Nat × List Nat))
  | _, [], acc => .ok acc
  | lineNum, line :: restLines, acc =>
    if line = [48, 48, 48, 48] then .ok acc
    else
      match (if lineNum = 0 then stripN 4 line else some line) with
      | none => .panicked
      | some l1 =>
        match stripN 4 l1 with
        | none => .panicked
        | some l2 =>
          if l2.length < 40 then .panicked
          else
            match l2.drop 40 with
            | [] => .panicked
            | c :: l4 =>
              if c ≠ 32 then .panicked
              else getRefListLoop (lineNum + 1) restLines
                (acc ++ [(l2.take 40, (splitOnByte 0 l4).headD [])])

/-- Model of GetRefList (clone package): splits the advertisement on
newlines, errors when fewer than two parts exist, then parses the ref
lines. -/
def GetRefList (input : List Nat) : GoOut (List (List Nat × List Nat)) :=
  let refParts := splitOnByte 10 input
  if refParts.length < 2 then .err
  else getRefListLoop 0 (refParts.drop 1) []

/-- Model of readBigEndian (clone package) on a 4-byte list. -/
def readBigEndian (b : List Nat) : Nat :=
  match b with
  | [b0, b1, b2, b3] => b3 ||| (b2 <<< 8) ||| (b1 <<< 16) ||| (b0 <<< 24)
  | _ => 0

/-- Model of readPackFileHeader (clone package): skips an optional
0008NAK newline prefix, requires the PACK magic, version 2 or 3, and the
object count; slices without bounds checks are modelled as panics.
Returns (bytes consumed, version, number of objects). -/
def readPackFileHeader (content : List Nat) : GoOut (Nat × Nat × Nat) :=
  if content.length < 8 then .panicked
  else
    let off0 := if content.take 8 = [48, 48, 48, 56, 78, 65, 75, 10] then 8 else 0
    if content.length < off0 + 4 then .panicked
    else if (content.drop off0).take 4 ≠ [80, 65, 67, 75] then .err
    else if content.length < off0 + 8 then .panicked
    else
      let version := readBigEndian ((content.drop (off0 + 4)).take 4)
      if version ≠ 2 ∧ version ≠ 3 then .err
      else if content.length < off0 + 12 then .panicked
      else .ok (off0 + 12, version, readBigEndian ((content.drop (off0 + 8)).take 4))

/-- One decoded pack record (GitObject of the clone package): kind,
decompressed size, decompressed content, and the hex base hash for
ref-deltas (empty otherwise). -/
structure GitObj where
  objectType : Nat
  size : Nat
  content : List Nat
  base : List Nat
deriving DecidableEq

/-- Model of readPackFileBody (clone package), iterating over the declared
number of objects with the remaining bytes as an explicit suffix: reads
the type/size header, reads a 20-byte base hash only for ref-deltas
(nothing for offset-deltas), locates and decompresses the payload by the
external zlib frame locator (parameter decomp, returning the decompressed
bytes and the consumed byte count), and checks the cursor against the
buffer length.  An invalid object type hits the explicit Go panic. -/
def readBodyLoop (decomp : List Nat → Option (List Nat × Nat)) :
    Nat → List Nat → List GitObj → GoOut (List GitObj)
  | 0, _, acc => .ok acc
  | n + 1, remaining, acc =>
    match packObjectSize remaining with
    | none => .err
    | some (_, objType, headerBytesRead) =>
      let rem1 := remaining.drop headerBytesRead
      let pre : GoOut (List Nat × List Nat) :=
        if objType = OBJ_TAG ∨ objType = OBJ_BLOB ∨ objType = OBJ_COMMIT
            ∨ objType = OBJ_TREE then .ok ([], rem1)
        else if objType = OBJ_REF_DELTA then
          (if rem1.length < 20 then .panicked
           else .ok (hexEncode (rem1.take 20), rem1.drop 20))
        else if objType = OBJ_OFS_DELTA then .ok ([], rem1)
        else .panicked
      match pre with
      | .panicked => .panicked
      | .err => .err
      | .ok (base, rem2) =>
        match decomp rem2 with
        | none => .err
        | some (d, used) =>
          if rem2.length < used then .err
          else readBodyLoop decomp n (rem2.drop used) (acc ++ [⟨objType, d.length, d, base⟩])

/-- C4 evidence: concrete remote inputs on which the decoding functions
panic instead of returning a typed error.  GetRefList panics on a short
second line (slice out of range, then the explicit panic for a missing
space); readPackFileHeader panics on a truncated 8-byte header when
reading the object count; readBodyLoop hits the explicit unimplemented
panic on an object of invalid type 0. -/
theorem remote_input_panics :
    GetRefList [104, 10, 97, 97] = .panicked
    ∧ readPackFileHeader [80, 65, 67, 75, 0, 0, 0, 2] = .panicked
    ∧ readBodyLoop (fun l => some (l, l.length)) 1 [10, 120] [] = .panicked := by
  refine ⟨by decide, by decide, by decide⟩

/-- Loop of readVariableLengthOffset (package main): while the previous
byte has the continuation bit, increment the offset, read the next byte
and shift-or it in; int64 arithmetic is taken mod 2 ^ 64.  Returns the
offset and the unread rest, or none on truncated input. -/
def readVLOLoop : Nat → Nat → List Nat → Option (Nat × List Nat)
  | offset, b, [] =>
    if (b &&& 0x80) ≠ 0 then none else some (offset, [])
  | offset, b, b2 :: t =>
    if (b &&& 0x80) ≠ 0 then
      readVLOLoop (((((offset + 1) % 2 ^ 64) <<< 7) % 2 ^ 64) ||| (b2 &&& 0x7f)) b2 t
    else some (offset, b2 :: t)

/-- Model of readVariableLengthOffset (package main): the variable-length
negative-offset decoding used for offset-delta records in the
reader-based parser. -/
def readVariableLengthOffset : List Nat → Option (Nat × List Nat)
  | [] => none
  | b :: t => readVLOLoop (b &&& 0x7f) b t

/-- The offset value described by the spec recurrence: value starts as
first and 0x7F; each continuation byte maps value to
((value + 1) <<< 7) ||| (byte and 0x7F). -/
def claimOffsetValue (first : Nat) (conts : List Nat) : Nat :=
  conts.foldl (fun v c => ((v + 1) <<< 7) ||| (c &&& 0x7f)) (first &&& 0x7f)

/-- One pure recurrence step, written additively. -/
lemma offStep_eq_add (v c : Nat) :
    ((v + 1) <<< 7) ||| (c &&& 0x7f) = 2 ^ 7 * (v + 1) + (c &&& 0x7f) := by
  have hlt : c &&& 0x7f < 2 ^ 7 := by
    have : c &&& 0x7f ≤ 127 := Nat.and_le_right
    omega
  rw [Nat.shiftLeft_eq, Nat.mul_comm]
  exact (Nat.mul_add_lt_is_or hlt _).symm

/-- The pure recurrence is monotone in its accumulator run. -/
lemma offFold_le (l : List Nat) :
    ∀ v, v ≤ l.foldl (fun v c => ((v + 1) <<< 7) ||| (c &&& 0x7f)) v := by
  induction l with
  | nil => intro v; simp
  | cons c cs ih =>
    intro v
    have hstep : v ≤ ((v + 1) <<< 7) ||| (c &&& 0x7f) := by
      rw [offStep_eq_add]
      omega
    calc v ≤ ((v + 1) <<< 7) ||| (c &&& 0x7f) := hstep
      _ ≤ cs.foldl (fun v c => ((v + 1) <<< 7) ||| (c &&& 0x7f))
          (((v + 1) <<< 7) ||| (c &&& 0x7f)) := ih _
      _ = _ := by simp [List.foldl_cons]

/-- The loop stops and returns its state when the current byte has no
continuation bit. -/
lemma readVLOLoop_stop (off b : Nat) (l : List Nat) (h : (b &&& 0x80) = 0) :
    readVLOLoop off b l = some (off, l) := by
  cases l <;> simp [readVLOLoop, h]

/-- The loop of readVariableLengthOffset computes the pure recurrence on a
stream shaped as continuation bytes followed by a final byte, as long as
the final pure value stays below 2 ^ 56 (no int64 wrap-around). -/
lemma readVLOLoop_fold (mids : List Nat) :
    ∀ (off b last : Nat) (rest : List Nat),
      (b &&& 0x80) ≠ 0 → (∀ c ∈ mids, (c &&& 0x80) ≠ 0) → (last &&& 0x80) = 0 →
      (mids ++ [last]).foldl (fun v c => ((v + 1) <<< 7) ||| (c &&& 0x7f)) off < 2 ^ 56 →
      readVLOLoop off b ((mids ++ [last]) ++ rest) =
        some ((mids ++ [last]).foldl (fun v c => ((v + 1) <<< 7) ||| (c &&& 0x7f)) off, rest) := by
  induction mids with
  | nil =>
    intro off b last rest hb _ hlast hbound
    simp only [List.nil_append, List.foldl_cons, List.foldl_nil] at *
    simp only [List.cons_append]
    rw [readVLOLoop]
    rw [if_pos hb]
    have hoff1 : off + 1 < 2 ^ 64 := by
      rw [offStep_eq_add] at hbound
      omega
    have hsh : (off + 1) <<< 7 < 2 ^ 64 := by
      rw [Nat.shiftLeft_eq]
      rw [offStep_eq_add] at hbound
      omega
    rw [Nat.mod_eq_of_lt hoff1, Nat.mod_eq_of_lt hsh]
    exact readVLOLoop_stop _ _ _ hlast
  | cons m ms ih =>
    intro off b last rest hb hmids hlast hbound
    simp only [List.cons_append, List.foldl_cons] at *
    rw [readVLOLoop]
    rw [if_pos hb]
    have hm : (m &&& 0x80) ≠ 0 := hmids m (List.mem_cons_self m ms)
    have hrest : ∀ c ∈ ms, (c &&& 0x80) ≠ 0 := fun c hc => hmids c (List.mem_cons_of_mem m hc)
    have hmono : ((off + 1) <<< 7) ||| (m &&& 0x7f) ≤
        (ms ++ [last]).foldl (fun v c => ((v + 1) <<< 7) ||| (c &&& 0x7f))
          (((off + 1) <<< 7) ||| (m &&& 0x7f)) := offFold_le _ _
    have hoff1 : off + 1 < 2 ^ 64 := by
      have h1 : ((off + 1) <<< 7) ||| (m &&& 0x7f) < 2 ^ 56 := by omega
      rw [offStep_eq_add] at h1
      omega
    have hsh : (off + 1) <<< 7 < 2 ^ 64 := by
      have h1 : ((off + 1) <<< 7) ||| (m &&& 0x7f) < 2 ^ 56 := by omega
      rw [offStep_eq_add] at h1
      rw [Nat.shiftLeft_eq]
      omega
    rw [Nat.mod_eq_of_lt hoff1, Nat.mod_eq_of_lt hsh]
    exact ih (((off + 1) <<< 7) ||| (m &&& 0x7f)) m last rest hm hrest hlast hbound

/-- C6 (amended): the reader-based offset-delta path decodes the
variable-length negative offset with exactly the recurrence
value = first and 0x7F; while the continuation bit is set,
value = ((value + 1) <<< 7) ||| (next and 0x7F) (first two conjuncts,
stated for one-byte and multi-byte encodings, the latter below the int64
wrap bound); the buffer-based parser readPackFileBody, by contrast,
consumes no offset bytes at all for an OffsetDelta record: the payload
locator is applied directly to the bytes following the type/size header
(third conjunct). -/
theorem offsetDelta_two_parsers :
    (∀ (b : Nat) (rest : List Nat), (b &&& 0x80) = 0 →
      readVariableLengthOffset (b :: rest) = some (b &&& 0x7f, rest))
    ∧ (∀ (first : Nat) (mids : List Nat) (last : Nat) (rest : List Nat),
        (first &&& 0x80) ≠ 0 → (∀ c ∈ mids, (c &&& 0x80) ≠ 0) → (last &&& 0x80) = 0 →
        claimOffsetValue first (mids ++ [last]) < 2 ^ 56 →
        readVariableLengthOffset (first :: (mids ++ [last]) ++ rest) =
          some (claimOffsetValue first (mids ++ [last]), rest))
    ∧ (∀ (decomp : List Nat → Option (List Nat × Nat)) (n b : Nat) (rest : List Nat)
          (acc : List GitObj),
        ((b >>> 4) &&& 0x07) = OBJ_OFS_DELTA → ((b >>> 7) &&& 1) = 0 →
        readBodyLoop decomp (n + 1) (b :: rest) acc =
          (match decomp rest with
           | none => .err
           | some (d, used) =>
             if rest.length < used then .err
             else readBodyLoop decomp n (rest.drop used)
               (acc ++ [⟨OBJ_OFS_DELTA, d.length, d, []⟩]))) := by
  refine ⟨?_, ?_, ?_⟩
  · intro b rest hb
    unfold readVariableLengthOffset
    exact readVLOLoop_stop _ _ _ hb
  · intro first mids last rest hfirst hmids hlast hbound
    unfold readVariableLengthOffset
    exact readVLOLoop_fold mids (first &&& 0x7f) first last rest hfirst hmids hlast hbound
  · intro decomp n b rest acc htyp hmore
    simp only [readBodyLoop, packObjectSize, htyp, hmore, OBJ_OFS_DELTA, OBJ_TAG,
      OBJ_BLOB, OBJ_COMMIT, OBJ_TREE, OBJ_REF_DELTA]
    norm_num

/-- Witness for C6: the two-byte encoding 0x85 0x03 decodes to
((5 + 1) <<< 7) ||| 3 = 771 and leaves the rest untouched. -/
theorem offsetDelta_two_parsers_witness :
    readVariableLengthOffset (133 :: (([] : List Nat) ++ [3]) ++ [7]) =
      some (claimOffsetValue 133 (([] : List Nat) ++ [3]), [7]) :=
  offsetDelta_two_parsers.2.1 133 [] 3 [7] (by decide) (by decide) (by decide) (by decide)

/-- Counterexample for C6 as stated: on a pack body holding one
offset-delta record (header byte 0x62: type 6, size 2) followed by the
bytes 0x85 0x03 0x07, the buffer-based parser readPackFileBody hands the
decompressor the suffix starting at the offset-encoding itself, so the
record content keeps the bytes 0x85 0x03; a parser that consumed the
negative-offset encoding first (second conjunct, readVariableLengthOffset
consumes exactly those two bytes giving offset 771) would instead locate
the payload at 0x07. -/
theorem readBody_ofs_keeps_offset_bytes :
    readBodyLoop (fun l => some (l, l.length)) 1 [98, 133, 3, 7] [] =
      GoOut.ok [⟨OBJ_OFS_DELTA, 3, [133, 3, 7], []⟩]
    ∧ readVariableLengthOffset [133, 3, 7] = some (771, [7]) := by
  refine ⟨by decide, by decide⟩

/-- ASCII bytes of the type string ofsdelta. -/
def ofsdeltaStr : List Nat := [111, 102, 115, 100, 101, 108, 116, 97]

/-- ASCII bytes of the type string refdelta. -/
def refdeltaStr : List Nat := [114, 101, 102, 100, 101, 108, 116, 97]

/-- Model of the GitObjectType String method (clone package): the six
named kinds map to their strings, everything else to invalid(value)). -/
def typeString (o : Nat) : List Nat :=
  if o = OBJ_TREE then treeKind
  else if o = OBJ_BLOB then blobKind
  else if o = OBJ_COMMIT then commitKind
  else if o = OBJ_TAG then tagKind
  else if o = OBJ_OFS_DELTA then ofsdeltaStr
  else if o = OBJ_REF_DELTA then refdeltaStr
  else [105, 110, 118, 97, 108, 105, 100, 40] ++ numToDecBytes o ++ [41, 41]

/-- Model of StringToObjectType (clone package). -/
def StringToObjectType (s : List Nat) : Nat :=
  if s = treeKind then OBJ_TREE
  else if s = blobKind then OBJ_BLOB
  else if s = commitKind then OBJ_COMMIT
  else if s = tagKind then OBJ_TAG
  else if s = ofsdeltaStr then OBJ_OFS_DELTA
  else if s = refdeltaStr then OBJ_REF_DELTA
  else OBJ_INVALID

/-- The pure value returned by CalculateEncodedSHA from a reset hasher
(established by the C9 analysis): the hex encoding of the SHA-1 digest. -/
def calculateEncodedSHAFn (content : List Nat) : List Nat :=
  hexEncode (sha1 content)

/-- The loose-object store modelled as the written files: pairs of
(40-hex-character hash, file bytes). -/
abbrev ObjStore := List (List Nat × List Nat)

/-- Error kinds of the two-pass writer (clone package). -/
inductive WriteErr where
  | badHashLength
  | noSuchObject
  | corruptObject (e : ReadObjErr)
  | deltaFailed (e : DeltaError)
  | invalidBaseType
deriving DecidableEq

/-- Model of writeSingleObject (clone package): formats the object with
its kind string, hashes it, and writes the compressed bytes under the
hash (CreateEmptyObjectFile rejects hashes whose length is not 40). -/
def writeSingleObject (compress : List Nat → List Nat) (store : ObjStore)
    (objType : Nat) (content : List Nat) : Except WriteErr ObjStore :=
  let fullContent := FormatGitObjectContent (typeString objType) content
  let hash := calculateEncodedSHAFn fullContent
  if hash.length ≠ 40 then .error .badHashLength
  else .ok (store ++ [(hash, WriteCompactContent compress fullContent)])

/-- Model of GetFileFromHash (common package): checks the hash length and
looks the object up in the store. -/
def GetFileFromHash (store : ObjStore) (objHash : List Nat) :
    Except WriteErr (List Nat) :=
  if objHash.length ≠ 40 then .error .badHashLength
  else
    match store.find? (fun e => e.1 == objHash) with
    | none => .error .noSuchObject
    | some e => .ok e.2

/-- Model of writeDeltaObject (clone package): reads the base object by
hash, applies the delta, rewraps under the base type, and writes. -/
def writeDeltaObject (compress : List Nat → List Nat)
    (decompress : List Nat → Option (List Nat)) (store : ObjStore) (obj : GitObj) :
    Except WriteErr ObjStore :=
  match GetFileFromHash store obj.base with
  | .error e => .error e
  | .ok fileBytes =>
    match ReadObjectFile decompress fileBytes with
    | .error e => .error (.corruptObject e)
    | .ok (baseContent, baseTypeStr) =>
      match applyDelta baseContent obj.content with
      | .error e => .error (.deltaFailed e)
      | .ok resolvedContent =>
        let objType := StringToObjectType baseTypeStr
        if objType = OBJ_INVALID then .error .invalidBaseType
        else writeSingleObject compress store objType resolvedContent

/-- First pass of WriteObjects (clone package): ref-delta records are
collected in order, every other record is written immediately. -/
def writeObjectsPass1 (compress : List Nat → List Nat) :
    ObjStore → List GitObj → Except WriteErr (ObjStore × List GitObj)
  | store, [] => .ok (store, [])
  | store, obj :: rest =>
    if obj.objectType = OBJ_REF_DELTA then
      match writeObjectsPass1 compress store rest with
      | .error e => .error e
      | .ok (st, ds) => .ok (st, obj :: ds)
    else
      match writeSingleObject compress store obj.objectType obj.content with
      | .error e => .error e
      | .ok st2 => writeObjectsPass1 compress st2 rest

/-- Second pass of WriteObjects: resolve and write the collected
ref-delta records. -/
def writeObjectsPass2 (compress : List Nat → List Nat)
    (decompress : List Nat → Option (List Nat)) :
    ObjStore → List GitObj → Except WriteErr ObjStore
  | store, [] => .ok store
  | store, obj :: rest =>
    match writeDeltaObject compress decompress store obj with
    | .error e => .error e
    | .ok st2 => writeObjectsPass2 compress decompress st2 rest

/-- Model of WriteObjects (clone package): pass 1 then pass 2. -/
def WriteObjects (compress : List Nat → List Nat)
    (decompress : List Nat → Option (List Nat)) (store : ObjStore)
    (objects : List GitObj) : Except WriteErr ObjStore :=
  match writeObjectsPass1 compress store objects with
  | .error e => .error e
  | .ok (st, deltas) => writeObjectsPass2 compress decompress st deltas

/-- C7 (amended): WriteObjects partitions records into RefDelta (pass 2)
and everything else (pass 1, offset-deltas included); an OffsetDelta
record is written in pass 1 as a literal loose object whose header type
string is ofsdelta, with its raw delta-instruction bytes as content, and
no unsupported-object-kind error is surfaced. -/
theorem writeObjects_ofsdelta_literal :
    ∀ (compress : List Nat → List Nat) (decompress : List Nat → Option (List Nat))
      (store : ObjStore) (sz : Nat) (content base : List Nat),
      WriteObjects compress decompress store [⟨OBJ_OFS_DELTA, sz, content, base⟩] =
        .ok (store ++ [(calculateEncodedSHAFn (FormatGitObjectContent ofsdeltaStr content),
          WriteCompactContent compress (FormatGitObjectContent ofsdeltaStr content))]) := by
  intro compress decompress store sz content base
  have htyp : typeString 6 = ofsdeltaStr := by decide
  have hlen : (calculateEncodedSHAFn (FormatGitObjectContent ofsdeltaStr content)).length = 40 := by
    unfold calculateEncodedSHAFn
    rw [hexEncode_length, sha1_length]
  simp [WriteObjects, writeObjectsPass1, writeObjectsPass2, writeSingleObject,
    htyp, hlen, OBJ_OFS_DELTA, OBJ_REF_DELTA]

/-- Counterexample for C7 as stated: a concrete OffsetDelta record with
content bytes 1 2 3 is accepted by WriteObjects without any error and is
stored as the literal loose object ofsdelta SP 3 NUL 1 2 3 under its
SHA-1 name, instead of failing with an unsupported-object-kind error. -/
theorem writeObjects_ofsdelta_concrete :
    WriteObjects id some [] [⟨OBJ_OFS_DELTA, 3, [1, 2, 3], []⟩] =
      .ok [(calculateEncodedSHAFn [111, 102, 115, 100, 101, 108, 116, 97, 32, 51, 0, 1, 2, 3],
        [111, 102, 115, 100, 101, 108, 116, 97, 32, 51, 0, 1, 2, 3])] := by
  have hfmt : FormatGitObjectContent ofsdeltaStr [1, 2, 3] =
      [111, 102, 115, 100, 101, 108, 116, 97, 32, 51, 0, 1, 2, 3] := by
    simp [FormatGitObjectContent, ofsdeltaStr, numToDecBytes]
  have htyp : typeString 6 = ofsdeltaStr := by decide
  have hlen : (calculateEncodedSHAFn [111, 102, 115, 100, 101, 108, 116, 97, 32, 51, 0, 1, 2, 3]).length = 40 := by
    unfold calculateEncodedSHAFn
    rw [hexEncode_length, sha1_length]
  simp [WriteObjects, writeObjectsPass1, writeObjectsPass2, writeSingleObject,
    htyp, hfmt, hlen, WriteCompactContent, OBJ_OFS_DELTA, OBJ_REF_DELTA]
